import Mathlib

/-!
Verification of the 3dSAGER demo service (src/app.py, src/tasks.py).

The development shallowly embeds the pure core of the service:
the identifier normalizer, the building-resolver cascade used by the
feature lookup endpoint, the single-building geometry extractor, the
cache-fallback logic, the per-building match-status computation, the
predicted-match filter, the prediction-document flattener, and the
all-buildings status endpoint.  Python dicts are modelled as association
lists (preserving insertion/iteration order), JSON numbers as rationals,
and `re.search` on literal patterns as substring search.
-/

/-! ## Identifier normalizer (src/app.py lines 480-486, repeated at 603-612,
840-842, 963-968, 1100-1105, 1203-1208)

The Python code is
`re.search(r'(\d{10,})', s)` followed by the fallback
`s.split('_')[-1] if '_' in s else s`. -/

/-- Semantics of the regex search for ten or more digits on the character
list of `s`: try each start position from the left; at the first position
where at least 10 consecutive digits begin, return the maximal digit run
starting there. -/
def findRun : List Char → Option (List Char)
  | [] => none
  | c :: rest =>
    if 10 ≤ (List.takeWhile Char.isDigit (c :: rest)).length then
      some (List.takeWhile Char.isDigit (c :: rest))
    else findRun rest

/-- Semantics of splitting on underscores and keeping the final segment:
the segment after the last underscore (the whole string when no underscore
occurs). -/
def lastSeg (l : List Char) : List Char :=
  (l.reverse.takeWhile (fun c => c != '_')).reverse

/-- The identifier normalization applied by every lookup endpoint
(inlined in the source as `numeric_id`):
first maximal run of at least 10 consecutive digits if one exists,
otherwise the segment after the last underscore when the string contains
one, otherwise the string unchanged (src/app.py lines 480-486). -/
def normalizeId (s : String) : String :=
  match findRun s.toList with
  | some run => String.mk run
  | none => if s.toList.contains '_' then String.mk (lastSeg s.toList) else s

@[simp]
theorem toList_mk (l : List Char) : (String.mk l).toList = l := rfl

/-- A run of at least 10 consecutive digits starts at position `j` of `l`. -/
def Has10DigitsAt (l : List Char) (j : Nat) : Prop :=
  10 ≤ (l.drop j).length ∧ ∀ c ∈ (l.drop j).take 10, c.isDigit = true

/-- Modelled from the spec: `r` is the first (leftmost) maximal run of at
least 10 consecutive digits inside `l`. -/
def specFirstRun (l r : List Char) : Prop :=
  ∃ pre post, l = pre ++ r ++ post ∧
    10 ≤ r.length ∧
    (∀ c ∈ r, c.isDigit = true) ∧
    (∀ c, post.head? = some c → c.isDigit = false) ∧
    (∀ j, j < pre.length → ¬ Has10DigitsAt l j)

theorem takeWhile_length_ge (p : Char → Bool) :
    ∀ (n : Nat) (l : List Char),
      n ≤ (l.takeWhile p).length ↔ (n ≤ l.length ∧ ∀ c ∈ l.take n, p c = true) := by
  intro n
  induction n with
  | zero => intro l; simp
  | succ n ih =>
    intro l
    cases l with
    | nil => simp
    | cons c t =>
      rw [List.takeWhile_cons]
      by_cases hp : p c
      · rw [if_pos hp]
        constructor
        · intro h
          have h' : n ≤ (t.takeWhile p).length := by
            simp only [List.length_cons] at h; omega
          obtain ⟨h1, h2⟩ := (ih t).mp h'
          refine ⟨by simp only [List.length_cons]; omega, ?_⟩
          intro x hx
          rw [List.take_succ_cons, List.mem_cons] at hx
          rcases hx with rfl | hx
          · exact hp
          · exact h2 x hx
        · rintro ⟨h1, h2⟩
          have h1' : n ≤ t.length := by
            simp only [List.length_cons] at h1; omega
          have h2' : ∀ x ∈ t.take n, p x = true := by
            intro x hx
            exact h2 x (by rw [List.take_succ_cons, List.mem_cons]; exact Or.inr hx)
          have := (ih t).mpr ⟨h1', h2'⟩
          simp only [List.length_cons]; omega
      · rw [if_neg hp]
        constructor
        · intro h; simp at h
        · rintro ⟨h1, h2⟩
          exact absurd (h2 c (by rw [List.take_succ_cons]; exact List.mem_cons_self c _)) hp

theorem dropWhile_head_not (p : Char → Bool) :
    ∀ (l : List Char) (c : Char), (l.dropWhile p).head? = some c → p c = false
  | [], c, h => by simp [List.dropWhile] at h
  | a :: t, c, h => by
    rw [List.dropWhile] at h
    by_cases hp : p a
    · exact dropWhile_head_not p t c (by simpa [hp] using h)
    · simp [hp] at h
      subst h
      simpa using hp

theorem has10_cons_succ (c : Char) (t : List Char) (j : Nat) :
    Has10DigitsAt (c :: t) (j + 1) ↔ Has10DigitsAt t j := by
  simp [Has10DigitsAt, List.drop_succ_cons]

theorem has10_zero_iff (l : List Char) :
    Has10DigitsAt l 0 ↔ 10 ≤ (l.takeWhile Char.isDigit).length := by
  rw [takeWhile_length_ge Char.isDigit 10 l]
  simp [Has10DigitsAt]

theorem findRun_eq_some_spec :
    ∀ (l r : List Char), findRun l = some r → specFirstRun l r
  | [], r, h => by simp [findRun] at h
  | c :: t, r, h => by
    rw [findRun] at h
    by_cases hlen : 10 ≤ ((c :: t).takeWhile Char.isDigit).length
    · simp only [hlen, if_true, Option.some.injEq] at h
      subst h
      refine ⟨[], (c :: t).dropWhile Char.isDigit, ?_, hlen, ?_, ?_, ?_⟩
      · simp [List.takeWhile_append_dropWhile]
      · exact fun x hx => List.mem_takeWhile_imp hx
      · exact fun x hx => dropWhile_head_not Char.isDigit (c :: t) x hx
      · intro j hj
        exact absurd hj (Nat.not_lt_zero j)
    · simp only [hlen, if_false] at h
      obtain ⟨pre, post, heq, hr10, hdig, hpost, hmin⟩ := findRun_eq_some_spec t r h
      refine ⟨c :: pre, post, by simp [heq], hr10, hdig, hpost, ?_⟩
      intro j hj
      cases j with
      | zero =>
        intro hcontra
        exact hlen ((has10_zero_iff (c :: t)).mp hcontra)
      | succ k =>
        rw [has10_cons_succ]
        exact hmin k (by simpa using hj)

theorem findRun_none_tail (c : Char) (t : List Char)
    (h : findRun (c :: t) = none) : findRun t = none := by
  rw [findRun] at h
  by_cases hlen : 10 ≤ ((c :: t).takeWhile Char.isDigit).length
  · simp [hlen] at h
  · simpa [hlen] using h

theorem findRun_eq_none_spec :
    ∀ (l : List Char), findRun l = none → ∀ j, ¬ Has10DigitsAt l j
  | [], _, j => by simp [Has10DigitsAt]
  | c :: t, h, j => by
    cases j with
    | zero =>
      intro hcontra
      have hlen := (has10_zero_iff (c :: t)).mp hcontra
      rw [findRun] at h
      simp [hlen] at h
    | succ k =>
      rw [has10_cons_succ]
      exact findRun_eq_none_spec t (findRun_none_tail c t h) k

theorem findRun_suffix_none {l s : List Char}
    (h : findRun l = none) (hs : s <:+ l) : findRun s = none := by
  obtain ⟨t, rfl⟩ := hs
  induction t with
  | nil => simpa using h
  | cons a t' ih => exact ih (findRun_none_tail a (t' ++ s) h)

theorem lastSeg_no_underscore (l : List Char) : ∀ c ∈ lastSeg l, c ≠ '_' := by
  intro c hc
  have hmem : c ∈ l.reverse.takeWhile (fun c => c != '_') := by
    rw [lastSeg, List.mem_reverse] at hc
    exact hc
  have := List.mem_takeWhile_imp hmem
  simpa using this

theorem lastSeg_suffix (l : List Char) : lastSeg l <:+ l := by
  have h1 : (l.reverse.takeWhile (fun c => c != '_')) <+: l.reverse :=
    List.takeWhile_prefix _
  have h2 := List.reverse_suffix.mpr h1
  simpa [lastSeg] using h2

theorem lastSeg_decomp {l : List Char} (h : l.contains '_' = true) :
    ∃ pre, l = pre ++ '_' :: lastSeg l := by
  have hsplit :
      l.reverse.takeWhile (fun c => c != '_') ++
        l.reverse.dropWhile (fun c => c != '_') = l.reverse :=
    List.takeWhile_append_dropWhile _ l.reverse
  have hmem : '_' ∈ l.reverse := by
    rw [List.mem_reverse]
    simpa using h
  cases hdw : l.reverse.dropWhile (fun c => c != '_') with
  | nil =>
    exfalso
    rw [hdw, List.append_nil] at hsplit
    have hm : ('_' : Char) ∈ l.reverse.takeWhile (fun c => c != '_') := by
      rw [hsplit]; exact hmem
    have := List.mem_takeWhile_imp hm
    simp at this
  | cons d dt =>
    have hd := dropWhile_head_not (fun c => c != '_') l.reverse d (by rw [hdw]; rfl)
    have hdeq : d = '_' := by simpa using hd
    subst hdeq
    refine ⟨dt.reverse, ?_⟩
    have hrev : l = (l.reverse.takeWhile (fun c => c != '_') ++ '_' :: dt).reverse := by
      rw [← hdw, hsplit, List.reverse_reverse]
    conv_lhs => rw [hrev]
    simp [lastSeg]

theorem normalizeId_of_some {s : String} {r : List Char}
    (hr : findRun s.toList = some r) : normalizeId s = String.mk r := by
  unfold normalizeId
  rw [hr]

theorem normalizeId_of_none_true {s : String} (hn : findRun s.toList = none)
    (hc : s.toList.contains '_' = true) :
    normalizeId s = String.mk (lastSeg s.toList) := by
  unfold normalizeId
  rw [hn, if_pos hc]

theorem normalizeId_of_none_false {s : String} (hn : findRun s.toList = none)
    (hc : s.toList.contains '_' = false) : normalizeId s = s := by
  unfold normalizeId
  rw [hn, if_neg (by simpa using hc)]

/-- C1: for every identifier string, the normalization used by the lookup
endpoints returns (a) the first run of at least 10 consecutive digits when
one exists; otherwise (b) the substring after the last underscore when the
string contains one; otherwise (c) the string unchanged.  It is a pure,
total function of its input. -/
theorem c1_normalize_contract (s : String) :
    (∀ r, findRun s.toList = some r →
      specFirstRun s.toList r ∧ normalizeId s = String.mk r) ∧
    (findRun s.toList = none →
      (∀ j, ¬ Has10DigitsAt s.toList j) ∧
      (s.toList.contains '_' = true →
        ∃ pre, s.toList = pre ++ '_' :: (normalizeId s).toList ∧
          ∀ c ∈ (normalizeId s).toList, c ≠ '_') ∧
      (s.toList.contains '_' = false → normalizeId s = s)) := by
  constructor
  · intro r hr
    exact ⟨findRun_eq_some_spec s.toList r hr, normalizeId_of_some hr⟩
  · intro hn
    refine ⟨findRun_eq_none_spec s.toList hn, ?_, ?_⟩
    · intro hc
      have hns : (normalizeId s).toList = lastSeg s.toList := by
        rw [normalizeId_of_none_true hn hc, toList_mk]
      obtain ⟨pre, hpre⟩ := lastSeg_decomp hc
      refine ⟨pre, ?_, ?_⟩
      · rw [hns]; exact hpre
      · rw [hns]; exact lastSeg_no_underscore s.toList
    · intro hc
      exact normalizeId_of_none_false hn hc

/-- Witness for C1 at the identifier from the spec example. -/
theorem c1_witness :
    specFirstRun "bag_0518100000271783".toList "0518100000271783".toList ∧
    normalizeId "bag_0518100000271783" = String.mk "0518100000271783".toList :=
  (c1_normalize_contract "bag_0518100000271783").1 "0518100000271783".toList (by decide)

theorem takeWhile_all (p : Char → Bool) :
    ∀ (l : List Char), (∀ c ∈ l, p c = true) → l.takeWhile p = l := by
  intro l
  induction l with
  | nil => intro _; rfl
  | cons c t ih =>
    intro h
    rw [List.takeWhile_cons, if_pos (h c (List.mem_cons_self c t)),
      ih (fun x hx => h x (List.mem_cons_of_mem c hx))]

theorem findRun_of_all_digits {r : List Char} (h10 : 10 ≤ r.length)
    (hdig : ∀ c ∈ r, c.isDigit = true) : findRun r = some r := by
  cases r with
  | nil => simp at h10
  | cons c rest =>
    rw [findRun, takeWhile_all Char.isDigit (c :: rest) hdig, if_pos h10]

/-- C9: identifier normalization is idempotent, and on any identifier whose
character list carries a run of at least 10 digits the result is exactly
that digit run, which normalizes to itself. -/
theorem c9_normalize_idempotent (s : String) :
    normalizeId (normalizeId s) = normalizeId s ∧
    ∀ r, findRun s.toList = some r →
      normalizeId s = String.mk r ∧ normalizeId (String.mk r) = String.mk r := by
  have key : ∀ r, findRun s.toList = some r →
      normalizeId (String.mk r) = String.mk r := by
    intro r hr
    obtain ⟨pre, post, heq, hr10, hdig, hpost, hmin⟩ := findRun_eq_some_spec s.toList r hr
    have hfr : findRun (String.mk r).toList = some r := by
      rw [toList_mk]
      exact findRun_of_all_digits hr10 hdig
    exact normalizeId_of_some hfr
  refine ⟨?_, fun r hr => ⟨normalizeId_of_some hr, key r hr⟩⟩
  cases hfind : findRun s.toList with
  | some r =>
    rw [normalizeId_of_some hfind]
    exact key r hfind
  | none =>
    cases hc : s.toList.contains '_' with
    | true =>
      rw [normalizeId_of_none_true hfind hc]
      have hfn : findRun (String.mk (lastSeg s.toList)).toList = none := by
        rw [toList_mk]
        exact findRun_suffix_none hfind (lastSeg_suffix s.toList)
      have hcn : (String.mk (lastSeg s.toList)).toList.contains '_' = false := by
        rw [toList_mk]
        cases hb : (lastSeg s.toList).contains '_' with
        | false => rfl
        | true =>
          exfalso
          have hm : '_' ∈ lastSeg s.toList := by simpa using hb
          exact lastSeg_no_underscore s.toList '_' hm rfl
      exact normalizeId_of_none_false hfn hcn
    | false =>
      rw [normalizeId_of_none_false hfind hc]
      rw [normalizeId_of_none_false hfind hc]

/-- Witness for C9 at a concrete identifier. -/
theorem c9_witness :
    normalizeId (normalizeId "NL.IMBAG.Pand.0518100000271783") =
      normalizeId "NL.IMBAG.Pand.0518100000271783" ∧
    normalizeId "NL.IMBAG.Pand.0518100000271783" = String.mk "0518100000271783".toList ∧
    normalizeId (String.mk "0518100000271783".toList) = String.mk "0518100000271783".toList := by
  have h := c9_normalize_idempotent "NL.IMBAG.Pand.0518100000271783"
  have h2 := h.2 "0518100000271783".toList (by decide)
  exact ⟨h.1, h2.1, h2.2⟩

/-! ## Building resolver cascade of the feature lookup endpoint
(src/app.py, `get_building_features`, lines 458-540: the cache branch).

Python dicts are association lists in insertion order; `re.search` with a
metacharacter-free pattern and the `in` operator on strings are substring
occurrence; `endswith` is the suffix test. The resolver is polymorphic in
the stored value, which the Python code never inspects. -/

/-- Occurrence of `pat` as a contiguous substring of `s` (Python
`pat in s`, and `re.search(pat, s)` for a literal pattern). -/
def substrB (pat s : String) : Bool := decide (pat.toList <:+: s.toList)

/-- Python `s.endswith(pat)`. -/
def endsWithB (s pat : String) : Bool := decide (pat.toList <:+ s.toList)

/-- Python `s.lstrip('0')`. -/
def lstrip0 (s : String) : String :=
  String.mk (s.toList.dropWhile (fun c => c == '0'))

/-- Python `s.zfill(16)` on an unsigned identifier string. -/
def zfill16 (s : String) : String :=
  if s.toList.length < 16 then
    String.mk (List.replicate (16 - s.toList.length) '0' ++ s.toList)
  else s

/-- Python dict lookup, on an insertion-ordered association list. -/
def assocFind {α : Type} (m : List (String × α)) (k : String) : Option α :=
  (m.find? (fun p => p.1 == k)).map (fun p => p.2)

/-- One iteration of the inner scan of the variants loop (lines 517-530):
exact string equality, substring containment in either direction
(the two `re.search` calls), or suffix relation in either direction. -/
def matchTests (v k : String) : Bool :=
  (k == v) || substrB v k || substrB k v || endsWithB v k || endsWithB k v

/-- The `for cached_id, cached_features in building_features.items()` scan
for one variant (lines 517-530). -/
def scanVariant {α : Type} (v : String) (bf : List (String × α)) : Option α :=
  (bf.find? (fun p => matchTests v p.1)).map (fun p => p.2)

/-- The `for variant in numeric_id_variants` loop (lines 509-530): for each
variant, first the dict-membership check, then the full scan. -/
def tryVariants {α : Type} : List String → List (String × α) → Option α
  | [], _ => none
  | v :: vs, bf =>
    match assocFind bf v with
    | some f => some f
    | none =>
      match scanVariant v bf with
      | some f => some f
      | none => tryVariants vs bf

/-- The final containment scan (lines 532-540): `numeric_id in cached_id
or cached_id in numeric_id`. -/
def finalScan {α : Type} (nid : String) (bf : List (String × α)) : Option α :=
  (bf.find? (fun p => substrB nid p.1 || substrB p.1 nid)).map (fun p => p.2)

/-- The matching cascade of `get_building_features` against a loaded
feature map (src/app.py lines 470-540): raw exact key, then exact key on
the normalized id, then the three variants (normalized, leading zeros
stripped, zero-padded to 16) each by dict lookup and by scan, then the
final containment scan.  `none` models falling through to the reload path
with no cache hit. -/
def get_building_features_lookup {α : Type} (building_id : String)
    (bf : List (String × α)) : Option α :=
  if bf.isEmpty then none
  else
    match assocFind bf building_id with
    | some f => some f
    | none =>
      match assocFind bf (normalizeId building_id) with
      | some f => some f
      | none =>
        match tryVariants [normalizeId building_id,
            lstrip0 (normalizeId building_id),
            zfill16 (normalizeId building_id)] bf with
        | some f => some f
        | none => finalScan (normalizeId building_id) bf

/-- C2: whenever the loaded feature map contains the raw requested
identifier as an exact key, the lookup cascade returns exactly that key's
features; no normalization, zero-padding or containment step is applied
before the exact raw-key match. -/
theorem c2_exact_raw_match_first {α : Type} (bf : List (String × α))
    (building_id : String) (f : α)
    (h : assocFind bf building_id = some f) :
    get_building_features_lookup building_id bf = some f := by
  have hne : bf.isEmpty = false := by
    cases bf with
    | nil => simp [assocFind] at h
    | cons a t => rfl
  unfold get_building_features_lookup
  rw [if_neg (by simp [hne]), h]

/-- Witness for C2 on a concrete two-entry feature map. -/
theorem c2_witness :
    get_building_features_lookup "bag_0518100000271783"
      [("0518100000271783", 7), ("bag_0518100000271783", 3)] = some 3 :=
  c2_exact_raw_match_first _ _ 3 (by decide)

theorem substrB_self (s : String) : substrB s s = true :=
  decide_eq_true ⟨[], [], by simp⟩

theorem substrB_empty (s : String) : substrB "" s = true :=
  decide_eq_true ⟨[], s.toList, by simp⟩

theorem endsWithB_imp_substrB {s pat : String} (h : endsWithB s pat = true) :
    substrB pat s = true := by
  have hs : pat.toList <:+ s.toList := of_decide_eq_true h
  obtain ⟨t, ht⟩ := hs
  exact decide_eq_true ⟨t, [], by simp only [List.append_nil]; exact ht⟩

theorem matchTests_false {v k : String}
    (h1 : substrB v k = false) (h2 : substrB k v = false) :
    matchTests v k = false := by
  have hk : (k == v) = false := by
    cases he : k == v
    · rfl
    · exfalso
      have hkv : k = v := by simpa using he
      subst hkv
      rw [substrB_self] at h1
      simp at h1
  have e1 : endsWithB v k = false := by
    cases hc : endsWithB v k
    · rfl
    · exfalso
      rw [endsWithB_imp_substrB hc] at h2
      simp at h2
  have e2 : endsWithB k v = false := by
    cases hc : endsWithB k v
    · rfl
    · exfalso
      rw [endsWithB_imp_substrB hc] at h1
      simp at h1
  rw [matchTests, hk, h1, h2, e1, e2]
  rfl

theorem assocFind_eq_none_of_keys {α : Type} {m : List (String × α)} {k : String}
    (h : ∀ p ∈ m, p.1 ≠ k) : assocFind m k = none := by
  have hf : m.find? (fun p => p.1 == k) = none := by
    rw [List.find?_eq_none]
    intro p hp
    simpa using h p hp
  rw [assocFind, hf]
  rfl

theorem mem_of_assocFind_isSome {α : Type} {m : List (String × α)} {k : String}
    (h : assocFind m k ≠ none) : k ∈ m.map Prod.fst := by
  rw [assocFind] at h
  cases hf : m.find? (fun p => p.1 == k) with
  | none => rw [hf] at h; simp at h
  | some p =>
    have hp := List.find?_some hf
    have hm := List.mem_of_find?_eq_some hf
    have : p.1 = k := by simpa using hp
    subst this
    exact List.mem_map_of_mem Prod.fst hm

theorem lstrip0_all_zeros {s : String} (hz : ∀ c ∈ s.toList, c = '0') :
    lstrip0 s = "" := by
  rw [lstrip0]
  have hd : s.toList.dropWhile (fun c => c == '0') = [] := by
    rw [List.dropWhile_eq_nil_iff]
    intro x hx
    simp [hz x hx]
  rw [hd]

/-- C10 counterexample: a feature map whose first entry is `"abc"` and
whose second key contains a run of eleven zeros; the requested id
normalizes to a run of ten zeros which is not a key.  The cascade returns
the SECOND entry (the zero run matches inside the second key during the
first variant scan), not the first entry as the claim states. -/
theorem c10_counterexample :
    get_building_features_lookup "b_0000000000"
      [("abc", 1), ("x00000000000", 2)] = some 2 ∧
    (([("abc", 1), ("x00000000000", 2)] : List (String × Nat)).head?.map
      (fun p => p.2)) = some 1 ∧
    normalizeId "b_0000000000" = "0000000000" ∧
    assocFind [("abc", 1), ("x00000000000", 2)] "0000000000" = (none : Option Nat) ∧
    (2 : Nat) ≠ 1 := by
  refine ⟨by decide, by decide, by decide, by decide, by decide⟩

theorem matchTests_empty (k : String) : matchTests "" k = true := by
  rw [matchTests, substrB_empty]
  simp

theorem scanVariant_eq_none {α : Type} {v : String} {bf : List (String × α)}
    (h : ∀ p ∈ bf, matchTests v p.1 = false) : scanVariant v bf = none := by
  have hf : bf.find? (fun p => matchTests v p.1) = none := by
    rw [List.find?_eq_none]
    intro p hp
    simp [h p hp]
  rw [scanVariant, hf]
  rfl

theorem scanVariant_head {α : Type} {v k0 : String} {f0 : α}
    {t : List (String × α)} (h : matchTests v k0 = true) :
    scanVariant v ((k0, f0) :: t) = some f0 := by
  have hf : List.find? (fun p => matchTests v p.1) ((k0, f0) :: t) = some (k0, f0) :=
    List.find?_cons_of_pos _ (by simpa using h)
  rw [scanVariant, hf]
  rfl

theorem tryVariants_cons_none {α : Type} {v : String} {vs : List String}
    {bf : List (String × α)} (h1 : assocFind bf v = none)
    (h2 : scanVariant v bf = none) :
    tryVariants (v :: vs) bf = tryVariants vs bf := by
  simp only [tryVariants]
  rw [h1, h2]

theorem tryVariants_cons_scan {α : Type} {v : String} {vs : List String}
    {bf : List (String × α)} {f : α} (h1 : assocFind bf v = none)
    (h2 : scanVariant v bf = some f) :
    tryVariants (v :: vs) bf = some f := by
  simp only [tryVariants]
  rw [h1, h2]

theorem lookup_eq_of_tryVariants {α : Type} {bid : String}
    {bf : List (String × α)} {f : α}
    (hne : bf.isEmpty = false)
    (h1 : assocFind bf bid = none)
    (h2 : assocFind bf (normalizeId bid) = none)
    (h3 : tryVariants [normalizeId bid, lstrip0 (normalizeId bid),
      zfill16 (normalizeId bid)] bf = some f) :
    get_building_features_lookup bid bf = some f := by
  unfold get_building_features_lookup
  rw [if_neg (by simp [hne]), h1, h2, h3]

/-- C10 amended: for every NON-EMPTY feature map and requested identifier
whose extracted numeric id is a run of at least 10 zeros, PROVIDED that the
raw identifier is not a key and that no key contains the zero run as a
substring nor is contained in it (in particular the zero run itself and
the empty string are not keys), the lookup cascade returns the features of
the first entry in the map's iteration order: stripping leading zeros
yields the empty string as the second variant, and the empty pattern's
containment test matches the first key scanned. -/
theorem c10_all_zeros_returns_first_entry {α : Type}
    (bf : List (String × α)) (bid : String)
    (h0 : bf ≠ [])
    (hraw : assocFind bf bid = none)
    (hz : ∀ c ∈ (normalizeId bid).toList, c = '0')
    (hkeys : ∀ k ∈ bf.map Prod.fst,
      substrB (normalizeId bid) k = false ∧ substrB k (normalizeId bid) = false) :
    ∃ k0 f0 t, bf = (k0, f0) :: t ∧
      get_building_features_lookup bid bf = some f0 := by
  obtain ⟨k0, f0, t, rfl⟩ : ∃ k0 f0 t, bf = (k0, f0) :: t := by
    cases bf with
    | nil => exact absurd rfl h0
    | cons p t => exact ⟨p.1, p.2, t, rfl⟩
  refine ⟨k0, f0, t, rfl, ?_⟩
  have hnidkey : assocFind ((k0, f0) :: t) (normalizeId bid) = none := by
    apply assocFind_eq_none_of_keys
    intro p hp hcontra
    have hk := (hkeys p.1 (List.mem_map_of_mem Prod.fst hp)).1
    rw [hcontra, substrB_self] at hk
    simp at hk
  have hscan : scanVariant (normalizeId bid) ((k0, f0) :: t) = none := by
    apply scanVariant_eq_none
    intro p hp
    have hk := hkeys p.1 (List.mem_map_of_mem Prod.fst hp)
    exact matchTests_false hk.1 hk.2
  have hl : lstrip0 (normalizeId bid) = "" := lstrip0_all_zeros hz
  have hemptykey : assocFind ((k0, f0) :: t) "" = none := by
    apply assocFind_eq_none_of_keys
    intro p hp hcontra
    have hk := (hkeys p.1 (List.mem_map_of_mem Prod.fst hp)).2
    rw [hcontra, substrB_empty] at hk
    simp at hk
  have hhead : scanVariant "" ((k0, f0) :: t) = some f0 :=
    scanVariant_head (matchTests_empty k0)
  refine lookup_eq_of_tryVariants rfl hraw hnidkey ?_
  rw [tryVariants_cons_none hnidkey hscan, hl,
    tryVariants_cons_scan hemptykey hhead]

/-- Witness for the amended C10 on a one-entry map. -/
theorem c10_witness :
    get_building_features_lookup "b_0000000000" [("abc", (1 : Nat))] = some 1 := by
  obtain ⟨k0, f0, t, heq, hres⟩ :=
    c10_all_zeros_returns_first_entry [("abc", (1 : Nat))] "b_0000000000"
      (by decide) (by decide) (by decide) (by decide)
  have hp := (List.cons.inj heq).1
  have hf : f0 = 1 := by
    have hsnd := congrArg Prod.snd hp
    simpa using hsnd.symm
  rw [hres, hf]

/-! ## Prediction-document flattener (src/tasks.py `load_bkafi_results`
lines 118-144; the same loop inline at src/app.py lines 722-741,
1084-1090, 1186-1193). -/

theorem assocFind_cons {α : Type} (k' : String) (v' : α)
    (t : List (String × α)) (q : String) :
    assocFind ((k', v') :: t) q = if k' = q then some v' else assocFind t q := by
  by_cases h : k' = q
  · rw [assocFind, List.find?_cons_of_pos _ (by simpa using h), if_pos h]
    rfl
  · rw [assocFind, List.find?_cons_of_neg _ (by simpa using h), if_neg h]
    rfl

/-- Python dict assignment `m[k] = v` on an insertion-ordered association
list: overwrite in place when the key is present, append otherwise. -/
def insertAssoc {α : Type} : List (String × α) → String → α → List (String × α)
  | [], k, v => [(k, v)]
  | (k', v') :: t, k, v =>
    if k' = k then (k, v) :: t else (k', v') :: insertAssoc t k v

theorem assocFind_insertAssoc {α : Type} :
    ∀ (m : List (String × α)) (k : String) (v : α) (q : String),
      assocFind (insertAssoc m k v) q = if q = k then some v else assocFind m q
  | [], k, v, q => by
    rw [insertAssoc, assocFind_cons]
    by_cases h : q = k
    · rw [if_pos h.symm, if_pos h]
    · rw [if_neg (fun hh => h hh.symm), if_neg h]
  | (k', v') :: t, k, v, q => by
    have ih := assocFind_insertAssoc t k v q
    rw [insertAssoc]
    by_cases hk : k' = k
    · rw [if_pos hk, assocFind_cons, assocFind_cons]
      subst hk
      by_cases hq : q = k'
      · simp [hq]
      · simp [hq, Ne.symm hq]
    · rw [if_neg hk, assocFind_cons, assocFind_cons, ih]
      by_cases hq : k' = q
      · have hqk : ¬ (q = k) := fun hh => hk (hq.trans hh)
        simp [hq, hqk]
      · simp [hq]

/-- The inner `for building_id, building_data in file_buildings.items()`
loop: assign every binding of one file into the accumulating flat dict. -/
def insertAll {α : Type} (acc : List (String × α))
    (ps : List (String × α)) : List (String × α) :=
  ps.foldl (fun a kv => insertAssoc a kv.1 kv.2) acc

/-- The flattening of `load_bkafi_results`: iterate files in document
order, then buildings within each file, assigning into one flat dict
(src/tasks.py lines 126-134). -/
def flattenBkafi {α : Type}
    (doc : List (String × List (String × α))) : List (String × α) :=
  doc.foldl (fun acc fb => insertAll acc fb.2) []

/-- The value bound to `k` by the LAST pair of `ps` carrying key `k`. -/
def lastFind {α : Type} (ps : List (String × α)) (k : String) : Option α :=
  ps.foldl (fun acc p => if p.1 = k then some p.2 else acc) none

theorem lastFind_foldl_init {α : Type} (q : String) :
    ∀ (ps : List (String × α)) (o : Option α),
      ps.foldl (fun acc p => if p.1 = q then some p.2 else acc) o =
        match lastFind ps q with
        | some w => some w
        | none => o
  | [], o => by rfl
  | p :: ps', o => by
    rw [List.foldl_cons]
    rw [lastFind_foldl_init q ps' (if p.1 = q then some p.2 else o)]
    have h2 : lastFind (p :: ps') q =
        match lastFind ps' q with
        | some w => some w
        | none => if p.1 = q then some p.2 else none := by
      rw [lastFind, List.foldl_cons,
        lastFind_foldl_init q ps' (if p.1 = q then some p.2 else none)]
    rw [h2]
    cases lastFind ps' q with
    | some w => rfl
    | none =>
      by_cases hp : p.1 = q
      · simp [hp]
      · simp [hp]

theorem lastFind_cons {α : Type} (p : String × α) (ps : List (String × α))
    (q : String) :
    lastFind (p :: ps) q =
      match lastFind ps q with
      | some w => some w
      | none => if p.1 = q then some p.2 else none := by
  rw [lastFind, List.foldl_cons,
    lastFind_foldl_init q ps (if p.1 = q then some p.2 else none)]

theorem lastFind_append {α : Type} (xs ys : List (String × α)) (q : String) :
    lastFind (xs ++ ys) q =
      match lastFind ys q with
      | some w => some w
      | none => lastFind xs q := by
  rw [lastFind, List.foldl_append,
    lastFind_foldl_init q ys
      (List.foldl (fun acc p => if p.1 = q then some p.2 else acc) none xs)]
  rfl

theorem assocFind_insertAll {α : Type} :
    ∀ (ps acc : List (String × α)) (q : String),
      assocFind (insertAll acc ps) q =
        match lastFind ps q with
        | some w => some w
        | none => assocFind acc q
  | [], acc, q => by rfl
  | (k, v) :: ps', acc, q => by
    rw [insertAll, List.foldl_cons]
    have ih := assocFind_insertAll ps' (insertAssoc acc k v) q
    rw [insertAll] at ih
    rw [ih, lastFind_cons, assocFind_insertAssoc]
    cases lastFind ps' q with
    | some w => rfl
    | none =>
      by_cases hq : q = k
      · simp [hq]
      · simp [hq, Ne.symm hq]

theorem assocFind_flatten_fold {α : Type} :
    ∀ (doc : List (String × List (String × α)))
      (acc : List (String × α)) (q : String),
      assocFind (doc.foldl (fun acc fb => insertAll acc fb.2) acc) q =
        match lastFind (doc.flatMap (fun fb => fb.2)) q with
        | some w => some w
        | none => assocFind acc q
  | [], acc, q => by rfl
  | fb :: doc', acc, q => by
    rw [List.foldl_cons, assocFind_flatten_fold doc' (insertAll acc fb.2) q,
      List.flatMap_cons, lastFind_append, assocFind_insertAll]
    cases lastFind (doc'.flatMap (fun fb => fb.2)) q with
    | some w => rfl
    | none => rfl

theorem lastFind_isSome_iff {α : Type} :
    ∀ (ps : List (String × α)) (q : String),
      (lastFind ps q).isSome = true ↔ ∃ p ∈ ps, p.1 = q
  | [], q => by simp [lastFind]
  | p :: ps', q => by
    rw [lastFind_cons]
    cases hl : lastFind ps' q with
    | some w =>
      simp only [Option.isSome_some, true_iff]
      obtain ⟨p', hp', hq⟩ := (lastFind_isSome_iff ps' q).mp (by rw [hl]; rfl)
      exact ⟨p', List.mem_cons_of_mem p hp', hq⟩
    | none =>
      have hn : ¬ ∃ p ∈ ps', p.1 = q := by
        intro hc
        have := (lastFind_isSome_iff ps' q).mpr hc
        rw [hl] at this
        simp at this
      by_cases hp : p.1 = q
      · simp only [if_pos hp, Option.isSome_some, true_iff]
        exact ⟨p, List.mem_cons_self p ps', hp⟩
      · simp only [if_neg hp, Option.isSome_none]
        constructor
        · intro h; simp at h
        · rintro ⟨p', hp', hq⟩
          rcases List.mem_cons.mp hp' with rfl | hmem
          · exact absurd hq hp
          · exact absurd ⟨p', hmem, hq⟩ hn

/-- C7: flattening the nested prediction document produces a map whose
lookup is last-write-wins over the file-by-file concatenation of building
entries (later files overwrite earlier ones, no merging of candidate
lists), and whose key set is exactly the union of the building ids across
all files. -/
theorem c7_flatten_last_write_wins {α : Type}
    (doc : List (String × List (String × α))) (b : String) :
    assocFind (flattenBkafi doc) b =
      lastFind (doc.flatMap (fun fb => fb.2)) b ∧
    ((assocFind (flattenBkafi doc) b).isSome = true ↔
      ∃ fb ∈ doc, ∃ p ∈ fb.2, p.1 = b) := by
  have h1 : assocFind (flattenBkafi doc) b =
      lastFind (doc.flatMap (fun fb => fb.2)) b := by
    rw [flattenBkafi, assocFind_flatten_fold doc [] b]
    cases lastFind (doc.flatMap (fun fb => fb.2)) b with
    | some w => rfl
    | none => rfl
  refine ⟨h1, ?_⟩
  rw [h1, lastFind_isSome_iff]
  constructor
  · rintro ⟨p, hp, hq⟩
    obtain ⟨fb, hfb, hpfb⟩ := List.mem_flatMap.mp hp
    exact ⟨fb, hfb, p, hpfb, hq⟩
  · rintro ⟨fb, hfb, p, hpfb, hq⟩
    exact ⟨p, List.mem_flatMap.mpr ⟨fb, hfb, hpfb⟩, hq⟩

/-! ## Match candidates, predicted labels and per-building status
(src/app.py lines 36-37, 1230-1259, 1304-1356). -/

/-- The fixed confidence cutoff (src/app.py line 37). -/
def CONFIDENCE_THRESHOLD : ℚ := 1/2

/-- One entry of a `possible_matches` array; every field is optional in
the JSON document, exactly as the source reads it with `.get`. -/
structure MatchCandidate where
  index_id : Option String
  confidence : Option ℚ
  predicted_label : Option Int
  true_label : Option Int
deriving DecidableEq

/-- Python `match.get('confidence', 0)`. -/
def MatchCandidate.conf (m : MatchCandidate) : ℚ := m.confidence.getD 0

/-- The effective predicted label of a pair: the explicit
`predicted_label` when present, else 1 exactly when the confidence
strictly exceeds the threshold (src/app.py lines 1236-1240, 1319-1324). -/
def effPred (m : MatchCandidate) : Int :=
  match m.predicted_label with
  | some p => p
  | none => if CONFIDENCE_THRESHOLD < m.conf then 1 else 0

/-- One building entry of the prediction document. -/
structure BuildingData where
  possible_matches : List MatchCandidate
deriving DecidableEq

/-- The per-building status block of `get_all_buildings_status`
(src/app.py lines 1310-1347): scan all pairs for a predicted-positive
pair with true label 1 (true match) or with true label 0 (false
positive), then apply the precedence true_match, false_positive,
no_match, none. -/
def buildingStatusOf (pms : List MatchCandidate) : Option String :=
  let has_true_match :=
    pms.any (fun m => decide (effPred m = 1 ∧ m.true_label = some 1))
  let has_false_positive :=
    pms.any (fun m => decide (effPred m = 1 ∧ m.true_label = some 0))
  if has_true_match then some "true_match"
  else if has_false_positive then some "false_positive"
  else if 0 < pms.length then some "no_match"
  else none

/-- C5: the computed match status follows the precedence
true_match over false_positive over no_match over none across all of a
building's candidate pairs: one predicted-positive pair with true label 1
forces `true_match` regardless of the other pairs; otherwise a
predicted-positive pair with true label 0 forces `false_positive`;
otherwise any pair at all yields `no_match`; a building without pairs
gets no status. -/
theorem c5_match_status_precedence (pms : List MatchCandidate) :
    ((∃ m ∈ pms, effPred m = 1 ∧ m.true_label = some 1) →
      buildingStatusOf pms = some "true_match") ∧
    ((¬ ∃ m ∈ pms, effPred m = 1 ∧ m.true_label = some 1) →
      (∃ m ∈ pms, effPred m = 1 ∧ m.true_label = some 0) →
      buildingStatusOf pms = some "false_positive") ∧
    ((¬ ∃ m ∈ pms, effPred m = 1 ∧ m.true_label = some 1) →
      (¬ ∃ m ∈ pms, effPred m = 1 ∧ m.true_label = some 0) →
      pms ≠ [] → buildingStatusOf pms = some "no_match") ∧
    (pms = [] → buildingStatusOf pms = none) := by
  have hTM : (pms.any (fun m => decide (effPred m = 1 ∧ m.true_label = some 1)) = true)
      ↔ (∃ m ∈ pms, effPred m = 1 ∧ m.true_label = some 1) := by
    simp [List.any_eq_true]
  have hFP : (pms.any (fun m => decide (effPred m = 1 ∧ m.true_label = some 0)) = true)
      ↔ (∃ m ∈ pms, effPred m = 1 ∧ m.true_label = some 0) := by
    simp [List.any_eq_true]
  refine ⟨?_, ?_, ?_, ?_⟩
  · intro h
    simp only [buildingStatusOf]
    rw [if_pos (hTM.mpr h)]
  · intro h1 h2
    simp only [buildingStatusOf]
    rw [if_neg (fun hc => h1 (hTM.mp hc)), if_pos (hFP.mpr h2)]
  · intro h1 h2 h3
    simp only [buildingStatusOf]
    rw [if_neg (fun hc => h1 (hTM.mp hc)), if_neg (fun hc => h2 (hFP.mp hc)),
      if_pos (List.length_pos.mpr h3)]
  · intro h
    subst h
    rfl

/-- Witness for C5: a building with a false-positive pair and a
defaulted-positive true-match pair is classified true_match. -/
theorem c5_witness :
    buildingStatusOf
      [⟨some "999", some 1, some 1, some 0⟩,
       ⟨some "777", some (9/10), none, some 1⟩] = some "true_match" :=
  (c5_match_status_precedence _).1
    ⟨⟨some "777", some (9/10), none, some 1⟩,
      List.mem_cons_of_mem _ (List.mem_cons_self _ _),
      by norm_num [effPred, MatchCandidate.conf, CONFIDENCE_THRESHOLD], rfl⟩

/-! ## Per-building matches endpoint (src/app.py `get_building_matches`,
lines 1169-1259). -/

/-- Lookup of a candidate building in the flat prediction cache
(src/app.py lines 1211-1221): exact dict get on the extracted numeric id,
then a scan comparing each key by string equality or containment in either
direction. -/
def lookupBkafi (nid : String)
    (bk : List (String × BuildingData)) : Option BuildingData :=
  match assocFind bk nid with
  | some bd => some bd
  | none =>
    (bk.find? (fun p => (p.1 == nid) || substrB nid p.1 || substrB p.1 nid)).map
      (fun p => p.2)

/-- One output entry of the matches endpoint: the pair's index id as
`building_id`, its confidence, its optional true label (src/app.py lines
1243-1250; the constant `source` field is omitted). -/
structure OutMatch where
  building_id : String
  confidence : ℚ
  true_label : Option Int
deriving DecidableEq

/-- Projection of a predicted-positive pair to its output entry. -/
def toOutMatch (m : MatchCandidate) : OutMatch :=
  ⟨m.index_id.getD "", m.conf, m.true_label⟩

/-- The matches endpoint body (src/app.py lines 1230-1258): resolve the
building, keep exactly the pairs whose effective predicted label is 1,
project them, and sort by confidence descending.  An unresolved building
yields the empty match list. -/
def get_building_matches (building_id : String)
    (bk : List (String × BuildingData)) : List OutMatch :=
  match lookupBkafi (normalizeId building_id) bk with
  | none => []
  | some bd =>
    List.insertionSort (fun a b => b.confidence ≤ a.confidence)
      ((bd.possible_matches.filter (fun m => effPred m == 1)).map toOutMatch)

/-- C6: for a building whose extracted numeric id is a key of the
prediction map, the matches endpoint returns exactly (up to the final
confidence sort, a permutation) those candidate pairs whose effective
predicted label is 1, where a pair without an explicit label counts as
predicted 1 exactly when its confidence strictly exceeds 0.5; each
returned match carries the pair's index id as `building_id` and the
pair's confidence. -/
theorem c6_matches_filter (building_id : String)
    (bk : List (String × BuildingData)) (bd : BuildingData)
    (h : assocFind bk (normalizeId building_id) = some bd) :
    (get_building_matches building_id bk).Perm
      ((bd.possible_matches.filter (fun m => effPred m == 1)).map toOutMatch) ∧
    (∀ om, om ∈ get_building_matches building_id bk ↔
      ∃ m ∈ bd.possible_matches, effPred m = 1 ∧ om = toOutMatch m) ∧
    (∀ m ∈ bd.possible_matches, m.predicted_label = none →
      (effPred m = 1 ↔ CONFIDENCE_THRESHOLD < m.conf)) ∧
    (∀ m, (toOutMatch m).building_id = m.index_id.getD "" ∧
      (toOutMatch m).confidence = m.conf) := by
  have hlk : lookupBkafi (normalizeId building_id) bk = some bd := by
    rw [lookupBkafi, h]
  have hunf : get_building_matches building_id bk =
      List.insertionSort (fun a b => b.confidence ≤ a.confidence)
        ((bd.possible_matches.filter (fun m => effPred m == 1)).map toOutMatch) := by
    rw [get_building_matches, hlk]
  have hperm : (get_building_matches building_id bk).Perm
      ((bd.possible_matches.filter (fun m => effPred m == 1)).map toOutMatch) := by
    rw [hunf]
    exact List.perm_insertionSort _ _
  refine ⟨hperm, ?_, ?_, ?_⟩
  · intro om
    rw [hperm.mem_iff]
    constructor
    · intro hm
      obtain ⟨m, hmf, hom⟩ := List.mem_map.mp hm
      obtain ⟨hmem, hpred⟩ := List.mem_filter.mp hmf
      exact ⟨m, hmem, by simpa using hpred, hom.symm⟩
    · rintro ⟨m, hmem, hpred, rfl⟩
      exact List.mem_map.mpr ⟨m, List.mem_filter.mpr ⟨hmem, by simpa using hpred⟩, rfl⟩
  · intro m _ hnone
    rw [effPred, hnone]
    by_cases hlt : CONFIDENCE_THRESHOLD < m.conf
    · simp [hlt]
    · simp [hlt]
  · intro m
    exact ⟨rfl, rfl⟩

/-- Witness for C6: the spec's example scenario, building `"123"` with one
candidate of confidence 0.9 and no explicit label. -/
theorem c6_witness :
    (get_building_matches "123"
      [("123", BuildingData.mk [⟨some "999", some (9/10), none, some 1⟩])]).Perm
      (((BuildingData.mk [⟨some "999", some (9/10), none, some 1⟩]).possible_matches.filter
        (fun m => effPred m == 1)).map toOutMatch) :=
  (c6_matches_filter "123"
    [("123", BuildingData.mk [⟨some "999", some (9/10), none, some 1⟩])]
    (BuildingData.mk [⟨some "999", some (9/10), none, some 1⟩]) (by rfl)).1

/-! ## Cache tiers and the feature-calculation fallback (src/app.py lines
38-104 and `calculate_all_features`, lines 342-455).

The distributed tier is the Redis client.  `get_redis_client` memoizes
`_redis_client` after one successful connect-and-ping and thereafter
returns the memoized client WITHOUT re-checking the connection; only the
initial connection attempt is guarded by try/except.  `cache_get_json`
and `cache_set_json` call `client.get`/`client.set` unguarded, so with a
memoized client and a currently unreachable tier they raise a connection
error, which the endpoint's outer try/except turns into a 500 response.
The state records both the memoization flag and current reachability. -/

/-- Per-building feature maps keyed by building id, the payload stored
under a `features:` cache key. -/
abbrev FeaturePayload := List (String × List (String × ℚ))

/-- Process state: whether `_redis_client` holds a memoized client,
whether the distributed tier is currently reachable, the tier's
key-value content, and the in-process `features_cache` dict. -/
structure AppCacheState where
  memoizedClient : Bool
  redisUp : Bool
  redis : List (String × FeaturePayload)
  features_cache : List (String × FeaturePayload)
deriving DecidableEq

/-- `get_redis_client` (lines 44-54): return the memoized client without
any re-check; otherwise try to connect and ping, memoizing the client on
success and swallowing the exception (no client) on failure. -/
def get_redis_client (st : AppCacheState) : Option Unit × AppCacheState :=
  if st.memoizedClient then (some (), st)
  else if st.redisUp then (some (), { st with memoizedClient := true })
  else (none, st)

/-- `cache_get_json` (lines 57-64): no client is a silent miss, but with
a client the unguarded `client.get` raises when the tier is currently
unreachable (a memoized client is stale). -/
def cache_get_json (st : AppCacheState) (key : String) :
    Except String (Option FeaturePayload) × AppCacheState :=
  match get_redis_client st with
  | (none, st1) => (Except.ok none, st1)
  | (some _, st1) =>
    if st1.redisUp then (Except.ok (assocFind st1.redis key), st1)
    else (Except.error "ConnectionError", st1)

/-- `cache_set_json` (lines 67-72): no client returns False, but with a
client the unguarded `client.set` raises when the tier is currently
unreachable. -/
def cache_set_json (st : AppCacheState) (key : String)
    (payload : FeaturePayload) : Except String Bool × AppCacheState :=
  match get_redis_client st with
  | (none, st1) => (Except.ok false, st1)
  | (some _, st1) =>
    if st1.redisUp then
      (Except.ok true, { st1 with redis := insertAssoc st1.redis key payload })
    else (Except.error "ConnectionError", st1)

/-- Responses of `calculate_all_features`; `err500` is the outer
try/except turning an uncaught exception into an error response. -/
inductive CalcResponse where
  | errNoPath
  | alreadyCached (building_count : Nat)
  | queued
  | loaded (building_count : Nat)
  | errSourceMissing
  | err500 (msg : String)
deriving DecidableEq

/-- `calculate_all_features` (lines 342-455) with the I/O loaders
abstracted: `parquet` is the map `build_features_from_parquet` returns
when the parquet file exists, `jb` the reorganized map of the joblib
branch when the joblib file exists.  Cache hit first; with an available
client the work is queued; otherwise the loaded map is stored in the
local dict and written through `cache_set_json`.  An exception from
either cache call propagates to the handler's except branch (a 500). -/
def calculate_all_features (st : AppCacheState) (file_path : String)
    (parquet : Option FeaturePayload) (jb : Option FeaturePayload) :
    CalcResponse × AppCacheState :=
  if file_path = "" then (.errNoPath, st)
  else
    match cache_get_json st ("features:" ++ file_path) with
    | (Except.error e, st1) => (.err500 e, st1)
    | (Except.ok (some cached), st1) =>
      (.alreadyCached cached.length,
        { st1 with features_cache := insertAssoc st1.features_cache file_path cached })
    | (Except.ok none, st1) =>
      match get_redis_client st1 with
      | (some _, st2) => (.queued, st2)
      | (none, st2) =>
        match parquet with
        | some bf =>
          match cache_set_json
              { st2 with features_cache := insertAssoc st2.features_cache file_path bf }
              ("features:" ++ file_path) bf with
          | (Except.error e, st3) => (.err500 e, st3)
          | (Except.ok _, st3) => (.loaded bf.length, st3)
        | none =>
          match jb with
          | some bf =>
            match cache_set_json
                { st2 with features_cache := insertAssoc st2.features_cache file_path bf }
                ("features:" ++ file_path) bf with
            | (Except.error e, st3) => (.err500 e, st3)
            | (Except.ok _, st3) => (.loaded bf.length, st3)
          | none => (.errSourceMissing, st2)

/-- C4 counterexample: in the cache state reached after an earlier
successful connection (`_redis_client` memoized) once the tier has gone
down, a cache read raises instead of missing, a cache write raises
instead of returning False, and the feature-loading endpoint returns a
500 error instead of the loader's result — so unreachability of the
distributed tier is NOT error-free on every operation in every state. -/
theorem c4_counterexample :
    (cache_get_json ⟨true, false, [], []⟩ "features:f.json").1 =
      Except.error "ConnectionError" ∧
    (cache_set_json ⟨true, false, [], []⟩ "features:f.json"
      [("1234567890", [("h", 1)])]).1 = Except.error "ConnectionError" ∧
    (calculate_all_features ⟨true, false, [], []⟩ "f.json"
      (some [("1234567890", [("h", 1)])]) none).1 =
      CalcResponse.err500 "ConnectionError" ∧
    CalcResponse.err500 "ConnectionError" ≠ CalcResponse.loaded 1 :=
  ⟨rfl, rfl, rfl, by decide⟩

theorem get_redis_client_no_client (st : AppCacheState)
    (hdown : st.redisUp = false) (hnoclient : st.memoizedClient = false) :
    get_redis_client st = (none, st) := by
  obtain ⟨mem, up, redis0, fc0⟩ := st
  have hup : up = false := hdown
  have hmem : mem = false := hnoclient
  subst hup
  subst hmem
  rfl

/-- C4 amended: in every cache state where the distributed tier is
unreachable AND no client was memoized from an earlier successful
connection, cache reads return a miss, cache writes return False leaving
the state unchanged, and the feature-loading operation still returns the
loader's result and stores it in the in-process cache; no operation
signals an error. -/
theorem c4_no_client_degrades (st : AppCacheState)
    (file_path key : String) (payload bf : FeaturePayload)
    (jb : Option FeaturePayload)
    (hdown : st.redisUp = false) (hnoclient : st.memoizedClient = false)
    (hpath : file_path ≠ "") :
    (cache_get_json st key).1 = Except.ok none ∧
    (cache_set_json st key payload).1 = Except.ok false ∧
    (cache_set_json st key payload).2 = st ∧
    (calculate_all_features st file_path (some bf) jb).1 = .loaded bf.length ∧
    assocFind (calculate_all_features st file_path (some bf) jb).2.features_cache
      file_path = some bf := by
  obtain ⟨mem, up, redis0, fc0⟩ := st
  have hup : up = false := hdown
  have hmem : mem = false := hnoclient
  subst hup
  subst hmem
  refine ⟨rfl, rfl, rfl, ?_, ?_⟩
  · rw [calculate_all_features, if_neg hpath]
    rfl
  · rw [calculate_all_features, if_neg hpath]
    show assocFind (insertAssoc fc0 file_path bf) file_path = some bf
    rw [assocFind_insertAssoc]
    simp

/-- Witness for the amended C4 on a concrete never-connected state. -/
theorem c4_witness :
    (cache_get_json ⟨false, false, [], []⟩ "features:f.json").1 = Except.ok none ∧
    (cache_set_json ⟨false, false, [], []⟩ "features:f.json"
      [("1234567890", [("h", 1)])]).1 = Except.ok false ∧
    (cache_set_json ⟨false, false, [], []⟩ "features:f.json"
      [("1234567890", [("h", 1)])]).2 = ⟨false, false, [], []⟩ ∧
    (calculate_all_features ⟨false, false, [], []⟩ "f.json"
      (some [("1234567890", [("h", 1)])]) none).1 = .loaded 1 ∧
    assocFind (calculate_all_features ⟨false, false, [], []⟩ "f.json"
      (some [("1234567890", [("h", 1)])]) none).2.features_cache "f.json"
      = some [("1234567890", [("h", 1)])] :=
  c4_no_client_degrades ⟨false, false, [], []⟩ "f.json" "features:f.json"
    [("1234567890", [("h", 1)])] [("1234567890", [("h", 1)])] none rfl rfl (by decide)

/-! ## All-buildings status endpoint (src/app.py
`get_all_buildings_status`, lines 1267-1379). -/

/-- One row of the status response. -/
structure BuildingStatus where
  has_features : Bool
  has_pairs : Bool
  match_status : Option String
deriving DecidableEq

/-- Step 1 (lines 1283-1287): the ids holding features, the key set of
the features artifact when it is a loaded dict, empty otherwise. -/
def hasFeaturesSet (ofeat : Option FeaturePayload) : Finset String :=
  match ofeat with
  | none => ∅
  | some bf => (bf.map Prod.fst).toFinset

/-- Step 2 (lines 1289-1300): the ids holding BKAFI pairs, every
candidate key plus, when the key carries a run of at least 10 digits, the
extracted numeric id. -/
def hasPairsSet (obk : Option (List (String × BuildingData))) : Finset String :=
  match obk with
  | none => ∅
  | some bk =>
    (bk.flatMap (fun p =>
      p.1 :: (match findRun p.1.toList with
              | some r => [String.mk r]
              | none => []))).toFinset

/-- Step 3 (lines 1302-1356): the match-status dict, assigning per
candidate the status from `buildingStatusOf` under the full key and under
the extracted numeric id when present. -/
def matchStatusMap (obk : Option (List (String × BuildingData))) :
    List (String × String) :=
  match obk with
  | none => []
  | some bk =>
    bk.foldl (fun acc p =>
      match buildingStatusOf p.2.possible_matches with
      | none => acc
      | some st =>
        match findRun p.1.toList with
        | some r => insertAssoc (insertAssoc acc p.1 st) (String.mk r) st
        | none => insertAssoc acc p.1 st) []

/-- The status response: the combined id set and the status row of every
id. -/
structure StatusResponse where
  ids : Finset String
  statusOf : String → BuildingStatus

/-- `get_all_buildings_status` (lines 1267-1379): fails only on a missing
file parameter; otherwise combines whatever artifacts are loaded, each
row component coming only from its own artifact. -/
def get_all_buildings_status (file_path : String)
    (ofeat : Option FeaturePayload)
    (obk : Option (List (String × BuildingData))) :
    Except String StatusResponse :=
  if file_path = "" then Except.error "No file path provided"
  else Except.ok
    { ids := hasFeaturesSet ofeat ∪ hasPairsSet obk ∪
        ((matchStatusMap obk).map Prod.fst).toFinset,
      statusOf := fun b =>
        ⟨decide (b ∈ hasFeaturesSet ofeat),
         decide (b ∈ hasPairsSet obk),
         assocFind (matchStatusMap obk) b⟩ }

/-- C8: with a file parameter present, the status request succeeds even
when one or more artifacts are absent; each component of every row is
determined by its own artifact alone, and an absent artifact contributes
the empty component (no features, no pairs, no match status) instead of
failing the request. -/
theorem c8_partial_artifacts_degrade (file_path : String)
    (ofeat : Option FeaturePayload)
    (obk : Option (List (String × BuildingData)))
    (habsent : ofeat = none ∨ obk = none) (hfile : file_path ≠ "") :
    ∃ resp, get_all_buildings_status file_path ofeat obk = Except.ok resp ∧
      (ofeat = none → ∀ b, (resp.statusOf b).has_features = false) ∧
      (obk = none → ∀ b, (resp.statusOf b).has_pairs = false ∧
        (resp.statusOf b).match_status = none) ∧
      (∀ b, (resp.statusOf b).has_features = decide (b ∈ hasFeaturesSet ofeat) ∧
        (resp.statusOf b).has_pairs = decide (b ∈ hasPairsSet obk) ∧
        (resp.statusOf b).match_status = assocFind (matchStatusMap obk) b) ∧
      resp.ids = hasFeaturesSet ofeat ∪ hasPairsSet obk ∪
        ((matchStatusMap obk).map Prod.fst).toFinset := by
  refine ⟨_, by rw [get_all_buildings_status, if_neg hfile], ?_, ?_, ?_, rfl⟩
  · intro hf b
    subst hf
    simp [hasFeaturesSet]
  · intro hb b
    subst hb
    refine ⟨by simp [hasPairsSet], ?_⟩
    show assocFind (matchStatusMap none) b = none
    rfl
  · intro b
    exact ⟨rfl, rfl, rfl⟩

/-- Witness for C8: both artifacts absent, the request still succeeds
with empty components. -/
theorem c8_witness :
    ∃ resp, get_all_buildings_status "tile1.json" none none = Except.ok resp ∧
      (resp.statusOf "0518100000271783").has_features = false ∧
      (resp.statusOf "0518100000271783").has_pairs = false ∧
      (resp.statusOf "0518100000271783").match_status = none := by
  obtain ⟨resp, hok, hf, hb, _, _⟩ :=
    c8_partial_artifacts_degrade "tile1.json" none none (Or.inl rfl) (by decide)
  exact ⟨resp, hok, hf rfl _, (hb rfl _).1, (hb rfl _).2⟩

/-! ## Single-building geometry extraction (src/app.py
`get_single_building`, lines 793-951, after the file has been read). -/

/-- A vertex: a coordinate triple (coordinate values are irrelevant to
extraction). -/
abbrev Vertex := List Int

/-- A geometry record: Solid boundaries nest shell, face, ring, index
(four deep); MultiSurface boundaries nest surface, ring, index (three
deep); any other type passes through the extraction untouched. -/
inductive Geometry where
  | solid (boundaries : List (List (List (List Int))))
  | multiSurface (boundaries : List (List (List Int)))
  | other
deriving DecidableEq

/-- All vertex indices appearing in a geometry's boundaries. -/
def Geometry.refs : Geometry → List Int
  | .solid b =>
    b.flatMap (fun shell => shell.flatMap (fun face => face.flatMap (fun ring => ring)))
  | .multiSurface b =>
    b.flatMap (fun surface => surface.flatMap (fun ring => ring))
  | .other => []

/-- `collect_vertex_indices` over all of one object's geometry records
(lines 867-887): the set of non-negative integer indices referenced. -/
def collectIndices (gs : List Geometry) : Finset Int :=
  (gs.flatMap (fun g => g.refs.filter (fun v => decide (0 ≤ v)))).toFinset

/-- The sorted referenced-index list (line 890). -/
def sortedIndices (gs : List Geometry) : List Int :=
  (collectIndices gs).sort (fun a b => a ≤ b)

/-- The old-to-new renumbering `index_mapping.get(v_idx, v_idx)` (lines
891, 904, 914): position in the sorted referenced list, identity for an
unreferenced index. -/
def remapIdx (sorted : List Int) (v : Int) : Int :=
  if v ∈ sorted then (sorted.indexOf v : Int) else v

/-- `remap_geometry` (lines 898-919). -/
def remapGeometry (sorted : List Int) : Geometry → Geometry
  | .solid b =>
    .solid (b.map (fun shell => shell.map (fun face =>
      face.map (fun ring => ring.map (remapIdx sorted)))))
  | .multiSurface b =>
    .multiSurface (b.map (fun surface =>
      surface.map (fun ring => ring.map (remapIdx sorted))))
  | .other => .other

/-- A CityObject: its geometry records (other attributes pass through). -/
structure CityObject where
  geometry : List Geometry
deriving DecidableEq

/-- A CityJSON-like document: ordered CityObjects and the shared vertex
list. -/
structure CityDoc where
  cityObjects : List (String × CityObject)
  vertices : List Vertex
deriving DecidableEq

/-- The object search of `get_single_building` (lines 844-862): the first
object whose id equals the raw requested id or the extracted numeric id,
or whose own extracted digit run equals the numeric id. -/
def findTargetObject (building_id : String) (doc : CityDoc) :
    Option (String × CityObject) :=
  doc.cityObjects.find? (fun p =>
    (p.1 == building_id) || (p.1 == normalizeId building_id) ||
      (match findRun p.1.toList with
       | some r => String.mk r == normalizeId building_id
       | none => false))

/-- `new_vertices` (line 895): the vertices at the sorted referenced
indices that fall inside the vertex list. -/
def newVertices (vertices : List Vertex) (sorted : List Int) : List Vertex :=
  (sorted.filter (fun i => decide (i < (vertices.length : Int)))).map
    (fun i => vertices.getD i.toNat [])

/-- `get_single_building` (lines 793-951) after the file read: resolve
the object, collect its referenced vertex indices, renumber them, and
emit the single-object document. -/
def get_single_building (building_id : String) (doc : CityDoc) :
    Except String CityDoc :=
  match findTargetObject building_id doc with
  | none => Except.error "Building not found"
  | some (tid, obj) =>
    Except.ok
      ⟨[(tid, ⟨obj.geometry.map (remapGeometry (sortedIndices obj.geometry))⟩)],
        newVertices doc.vertices (sortedIndices obj.geometry)⟩

theorem mem_collectIndices {gs : List Geometry} {v : Int} :
    v ∈ collectIndices gs ↔ ∃ g ∈ gs, v ∈ g.refs ∧ 0 ≤ v := by
  simp [collectIndices, List.mem_filter]

theorem mem_sortedIndices {gs : List Geometry} {v : Int} :
    v ∈ sortedIndices gs ↔ v ∈ collectIndices gs :=
  Finset.mem_sort _

theorem length_sortedIndices (gs : List Geometry) :
    (sortedIndices gs).length = (collectIndices gs).card :=
  Finset.length_sort _

theorem refs_remapGeometry (sorted : List Int) (g : Geometry) :
    (remapGeometry sorted g).refs = g.refs.map (remapIdx sorted) := by
  cases g with
  | solid b =>
    simp [Geometry.refs, remapGeometry, List.map_flatMap, List.flatMap_map]
  | multiSurface b =>
    simp [Geometry.refs, remapGeometry, List.map_flatMap, List.flatMap_map]
  | other => rfl

theorem remapIdx_bounds {sorted : List Int} {v : Int} (h : v ∈ sorted) :
    0 ≤ remapIdx sorted v ∧ remapIdx sorted v < (sorted.length : Int) := by
  rw [remapIdx, if_pos h]
  constructor
  · exact Int.ofNat_nonneg _
  · exact_mod_cast List.indexOf_lt_length.mpr h

/-- C3: when the requested building resolves to a CityObject and every
vertex index referenced by that object's boundaries is a non-negative
integer below the vertex-list length, the extracted document holds
exactly one CityObject, its vertex list has exactly as many entries as
there are distinct referenced indices, and every index in its boundaries
lies in the half-open range from 0 to that count. -/
theorem c3_single_building_extraction (doc : CityDoc)
    (building_id tid : String) (obj : CityObject)
    (hfind : findTargetObject building_id doc = some (tid, obj))
    (hvalid : ∀ g ∈ obj.geometry, ∀ v ∈ g.refs,
      0 ≤ v ∧ v < (doc.vertices.length : Int)) :
    ∃ out, get_single_building building_id doc = Except.ok out ∧
      out.cityObjects.length = 1 ∧
      out.vertices.length = (collectIndices obj.geometry).card ∧
      (∀ p ∈ out.cityObjects, ∀ g ∈ p.2.geometry, ∀ v ∈ g.refs,
        0 ≤ v ∧ v < (out.vertices.length : Int)) := by
  have hok : get_single_building building_id doc =
      Except.ok
        ⟨[(tid, ⟨obj.geometry.map (remapGeometry (sortedIndices obj.geometry))⟩)],
          newVertices doc.vertices (sortedIndices obj.geometry)⟩ := by
    rw [get_single_building, hfind]
  have hall : ∀ i ∈ sortedIndices obj.geometry, i < (doc.vertices.length : Int) := by
    intro i hi
    obtain ⟨g, hg, href, _⟩ := mem_collectIndices.mp (mem_sortedIndices.mp hi)
    exact (hvalid g hg i href).2
  have hfilter : (sortedIndices obj.geometry).filter
      (fun i => decide (i < (doc.vertices.length : Int))) =
      sortedIndices obj.geometry :=
    List.filter_eq_self.mpr (fun i hi => decide_eq_true (hall i hi))
  have hlen : (newVertices doc.vertices (sortedIndices obj.geometry)).length =
      (collectIndices obj.geometry).card := by
    rw [newVertices, hfilter, List.length_map, length_sortedIndices]
  refine ⟨_, hok, rfl, hlen, ?_⟩
  intro p hp g hg v hv
  have hpe : p =
      (tid, ⟨obj.geometry.map (remapGeometry (sortedIndices obj.geometry))⟩) := by
    simpa using hp
  subst hpe
  obtain ⟨g0, hg0, rfl⟩ := List.mem_map.mp (by simpa using hg)
  rw [refs_remapGeometry] at hv
  obtain ⟨v0, hv0, rfl⟩ := List.mem_map.mp hv
  have hmem : v0 ∈ sortedIndices obj.geometry := by
    rw [mem_sortedIndices, mem_collectIndices]
    exact ⟨g0, hg0, hv0, (hvalid g0 hg0 v0 hv0).1⟩
  obtain ⟨hnn, hlt⟩ := remapIdx_bounds hmem
  refine ⟨hnn, ?_⟩
  rw [hlen]
  rw [length_sortedIndices] at hlt
  exact hlt

/-- Witness for C3: a two-triangle MultiSurface referencing vertices 0
and 2 of a three-vertex document. -/
theorem c3_witness :
    ∃ out,
      get_single_building "b1"
        ⟨[("b1", ⟨[Geometry.multiSurface [[[0, 2]]]]⟩)],
          [[0, 0, 0], [1, 1, 1], [2, 2, 2]]⟩ = Except.ok out ∧
      out.cityObjects.length = 1 ∧
      out.vertices.length = 2 := by
  obtain ⟨out, hok, h1, h2, _⟩ :=
    c3_single_building_extraction
      ⟨[("b1", ⟨[Geometry.multiSurface [[[0, 2]]]]⟩)],
        [[0, 0, 0], [1, 1, 1], [2, 2, 2]]⟩
      "b1" "b1" ⟨[Geometry.multiSurface [[[0, 2]]]]⟩ (by rfl) (by decide)
  refine ⟨out, hok, h1, ?_⟩
  rw [h2]
  rfl
